import Mathlib

/-!
# NetInstallViewStep

A shallow embedding of `src/modules/netinstall/NetInstallViewStep.cpp`
(Calamares netinstall module) and the properties of its `onLeave`,
`nextIsReady` and `setConfigurationMap` methods.

Qt values are embedded as follows: `QString` is `String`, `QList<T>` is
`List T`, `QVariantMap` (a `QMap<QString, QVariant>`) is a key-ordered
association list, a nullable owning pointer is an `Option`.  Calls made on
collaborators that live outside this file (the widget, the global storage,
the host's signal) are recorded in the state so that "was it called" is a
statement about the state.
-/

namespace NetInstall

/-! ## Qt value types -/

/-- The `QVariant` cases that the step can meet in a configuration map or in
global storage. -/
inductive QVariant where
  | invalid : QVariant
  | bool (b : Bool) : QVariant
  | int (i : Int) : QVariant
  | str (s : String) : QVariant
  | list (l : List QVariant) : QVariant
  | map (m : List (String × QVariant)) : QVariant

/-- A `QMap<QString, QVariant>`: pairs kept in key order by `QMap.insert`. -/
abbrev QVariantMap := List (String × QVariant)

/-- A `QList<QVariant>`. -/
abbrev QVariantList := List QVariant

/-- The order of `QString` keys inside a `QMap` (`operator<`): lexicographic
on the characters of the two strings. -/
def keyLt (a b : String) : Bool := decide (a.data < b.data)

namespace QMap

/-- `QMap::insert`: a new key is placed at its position in key order, an
existing key has its value replaced. -/
def insert (k : String) (v : QVariant) : QVariantMap → QVariantMap
  | [] => [(k, v)]
  | (a, b) :: rest =>
    if keyLt a k then (a, b) :: insert k v rest
    else if keyLt k a then (k, v) :: (a, b) :: rest
    else (k, v) :: rest

/-- `QMap::contains`. -/
def contains (m : QVariantMap) (k : String) : Bool :=
  m.any (fun p => p.1 == k)

/-- `QMap::value`: the value stored under the key, or a default-constructed
(invalid) `QVariant` when the key is absent. -/
def value (m : QVariantMap) (k : String) : QVariant :=
  match m.find? (fun p => p.1 == k) with
  | some p => p.2
  | none => QVariant.invalid

end QMap

namespace QVariant

/-- `QVariant::toMap`: the map held, or an empty map for any other type. -/
def toMap : QVariant → QVariantMap
  | map m => m
  | _ => []

/-- `QVariant::toList`: the list held, or an empty list for any other type. -/
def toList : QVariant → QVariantList
  | list l => l
  | _ => []

/-- `QVariant::toString`: strings as they are, booleans and integers in
their textual form, an empty string for the types without a conversion. -/
def toString : QVariant → String
  | str s => s
  | bool true => "true"
  | bool false => "false"
  | int i => ToString.toString i
  | _ => ""

end QVariant

/-! ## Collaborators declared outside this file -/

/-- Modelled from the spec: `PackageModel::PackageItemData`, declared in the
widget's package model and not in this file; "a record with at least
{criticality flag, conversion-to-operation representation}".  The result of
`toOperation()` is carried as a field. -/
structure PackageItemData where
  isCritical : Bool
  operation : QVariant

/-- Modelled from the spec: `PackageItemData::toOperation()`, the package's
conversion-to-operation representation. -/
def PackageItemData.toOperation (package : PackageItemData) : QVariant :=
  package.operation

/-- Modelled from the spec: `CalamaresUtils::Locale::TranslatedString`, the
localized-string object the step constructs from a label map, a key and a
class name. -/
structure TranslatedString where
  map : QVariantMap
  key : String
  context : String

/-- Modelled from the spec: `TranslatedString::get()`, the configured label;
with no translation in play it is the string stored under the key. -/
def TranslatedString.get (t : TranslatedString) : String :=
  (QMap.value t.map t.key).toString

/-- Modelled from the spec: the widget collaborator `NetInstallPage`, which
consumes `onActivate()`, `selectedPackages()`, `setRequired(bool)`,
`loadGroupList(url)` and `setPageTitle(label)`.  Its state is the current
selection and the record of what the step asked of it. -/
structure NetInstallPage where
  selectedPackages : List PackageItemData
  required : Bool
  loadGroupListCalls : List String
  pageTitle : Option TranslatedString
  activations : Nat

namespace NetInstallPage

/-- Modelled from the spec: `NetInstallPage::onActivate()`. -/
def onActivate (p : NetInstallPage) : NetInstallPage :=
  { p with activations := p.activations + 1 }

/-- Modelled from the spec: `NetInstallPage::setRequired(bool)`. -/
def setRequired (p : NetInstallPage) (b : Bool) : NetInstallPage :=
  { p with required := b }

/-- Modelled from the spec: `NetInstallPage::loadGroupList(url)`; the request
is recorded, the fetch itself is the widget's business. -/
def loadGroupList (p : NetInstallPage) (url : String) : NetInstallPage :=
  { p with loadGroupListCalls := p.loadGroupListCalls ++ [url] }

/-- Modelled from the spec: `NetInstallPage::setPageTitle(label)`. -/
def setPageTitle (p : NetInstallPage) (t : TranslatedString) : NetInstallPage :=
  { p with pageTitle := some t }

end NetInstallPage

/-- Modelled from the spec: `Calamares::GlobalStorage`, the shared key/value
store ("last-write-wins, keys absent until first write").  `m` is its
content, `inserted` the `insert` calls made on it, oldest first. -/
structure GlobalStorage where
  m : QVariantMap
  inserted : List (String × QVariant)

namespace GlobalStorage

/-- Modelled from the spec: `GlobalStorage::contains`. -/
def contains (gs : GlobalStorage) (key : String) : Bool :=
  QMap.contains gs.m key

/-- Modelled from the spec: `GlobalStorage::value`. -/
def value (gs : GlobalStorage) (key : String) : QVariant :=
  QMap.value gs.m key

/-- Modelled from the spec: `GlobalStorage::insert`, overwriting the previous
value of the key. -/
def insert (gs : GlobalStorage) (key : String) (v : QVariant) : GlobalStorage :=
  { m := QMap.insert key v gs.m, inserted := gs.inserted ++ [(key, v)] }

end GlobalStorage

namespace CalamaresUtils

/-- Modelled from the spec: `CalamaresUtils::getBool(map, key, default)`, the
boolean stored under the key, or the default when the key is absent or holds
another type. -/
def getBool (map : QVariantMap) (key : String) (d : Bool) : Bool :=
  if QMap.contains map key then
    match QMap.value map key with
    | QVariant.bool b => b
    | _ => d
  else d

/-- Modelled from the spec: `CalamaresUtils::getString(map, key)`, the string
stored under the key, or an empty string when the key is absent or holds
another type. -/
def getString (map : QVariantMap) (key : String) : String :=
  if QMap.contains map key then
    match QMap.value map key with
    | QVariant.str s => s
    | _ => ""
  else ""

/-- Modelled from the spec: `CalamaresUtils::getSubMap(map, key, success)`,
the nested map stored under the key together with the success flag, or an
empty map and `false`. -/
def getSubMap (map : QVariantMap) (key : String) : QVariantMap × Bool :=
  if QMap.contains map key then
    match QMap.value map key with
    | QVariant.map m => (m, true)
    | _ => ([], false)
  else ([], false)

end CalamaresUtils

/-! ## The step -/

/-- The members of `NetInstallViewStep`, the string form of its
`moduleInstanceKey()`, and the values it has emitted as
`nextStatusChanged`, oldest first. -/
structure NetInstallViewStep where
  m_widget : NetInstallPage
  m_nextEnabled : Bool
  m_sidebarLabel : Option TranslatedString
  moduleInstanceKey : String
  nextStatusChanged : List Bool

/-- The step together with the process-wide storage it reaches through
`Calamares::JobQueue::instance()->globalStorage()`. -/
structure World where
  step : NetInstallViewStep
  gs : GlobalStorage

/-- The constructor: a widget, `m_nextEnabled( false )`, no sidebar label,
and `emit nextStatusChanged( true )`.  The new widget and the instance key
given by the module loader are parameters. -/
def NetInstallViewStep.new (key : String) (page : NetInstallPage) : NetInstallViewStep :=
  { m_widget := page
    m_nextEnabled := false
    m_sidebarLabel := none
    moduleInstanceKey := key
    nextStatusChanged := [true] }

/-- The untranslated text of `tr( "Package selection" )`. -/
def defaultPrettyName : String := "Package selection"

/-- `NetInstallViewStep::prettyName`. -/
def NetInstallViewStep.prettyName (s : NetInstallViewStep) : String :=
  match s.m_sidebarLabel with
  | some l => l.get
  | none => defaultPrettyName

/-- `NetInstallViewStep::isNextEnabled`. -/
def NetInstallViewStep.isNextEnabled (s : NetInstallViewStep) : Bool :=
  s.m_nextEnabled

/-- `NetInstallViewStep::isBackEnabled`. -/
def NetInstallViewStep.isBackEnabled (_s : NetInstallViewStep) : Bool := true

/-- `NetInstallViewStep::isAtBeginning`. -/
def NetInstallViewStep.isAtBeginning (_s : NetInstallViewStep) : Bool := true

/-- `NetInstallViewStep::isAtEnd`. -/
def NetInstallViewStep.isAtEnd (_s : NetInstallViewStep) : Bool := true

/-- `NetInstallViewStep::onActivate`. -/
def NetInstallViewStep.onActivate (s : NetInstallViewStep) : NetInstallViewStep :=
  { s with m_widget := s.m_widget.onActivate }

/-- `NetInstallViewStep::nextIsReady`, the slot connected to the widget's
`checkReady` signal. -/
def NetInstallViewStep.nextIsReady (s : NetInstallViewStep) (b : Bool) : NetInstallViewStep :=
  { s with m_nextEnabled := b, nextStatusChanged := s.nextStatusChanged ++ [b] }

/-! ## onLeave -/

/-- The key `PACKAGEOP` of `onLeave`. -/
def PACKAGEOP : String := "packageOperations"

/-- The test of the removal loop on one entry:
`op.contains( "source" ) && op.value( "source" ).toString() == S`, with
`op = entry.toMap()`. -/
def isFromSource (S : String) (entry : QVariant) : Bool :=
  let op := entry.toMap
  QMap.contains op "source" && (QMap.value op "source").toString == S

/-- The removal loop `for ( index = length - 1; 0 <= index; index-- )`.  The
first argument is `index + 1`, so `0` is the exit `index = -1`.  `at( index )`
outside the list is `none`; `removeAt( index )` is `eraseIdx`. -/
def removalLoop (S : String) : Nat → QVariantList → Option QVariantList
  | 0, packageOperations => some packageOperations
  | index + 1, packageOperations =>
    match packageOperations[index]? with
    | none => none
    | some entry =>
      if isFromSource S entry then
        removalLoop S index (packageOperations.eraseIdx index)
      else
        removalLoop S index packageOperations

/-- One turn of the loop over the selected packages: the pair is
(`installPackages`, `tryInstallPackages`). -/
def partitionStep (acc : QVariantList × QVariantList) (package : PackageItemData) :
    QVariantList × QVariantList :=
  if package.isCritical then (acc.1 ++ [package.toOperation], acc.2)
  else (acc.1, acc.2 ++ [package.toOperation])

/-- The loop `for ( const auto& package : packages )` from two empty lists. -/
def partitionPackages (packages : List PackageItemData) : QVariantList × QVariantList :=
  packages.foldl partitionStep ([], [])

/-- The map built for the critical packages: `install` and `source`. -/
def installOp (S : String) (installPackages : QVariantList) : QVariantMap :=
  QMap.insert "source" (QVariant.str S) (QMap.insert "install" (QVariant.list installPackages) [])

/-- The map built for the non-critical packages: `try_install` and `source`. -/
def tryInstallOp (S : String) (tryInstallPackages : QVariantList) : QVariantMap :=
  QMap.insert "source" (QVariant.str S)
    (QMap.insert "try_install" (QVariant.list tryInstallPackages) [])

/-- The two conditional `append`s of `onLeave`. -/
def appendOperations (S : String) (installPackages tryInstallPackages : QVariantList)
    (packageOperations : QVariantList) : QVariantList :=
  let packageOperations :=
    if !installPackages.isEmpty then
      packageOperations ++ [QVariant.map (installOp S installPackages)]
    else packageOperations
  if !tryInstallPackages.isEmpty then
    packageOperations ++ [QVariant.map (tryInstallOp S tryInstallPackages)]
  else packageOperations

/-- The read at the top of `onLeave`:
`gs->contains( PACKAGEOP ) ? gs->value( PACKAGEOP ).toList() : QVariantList()`. -/
def readOperations (gs : GlobalStorage) : QVariantList :=
  if gs.contains PACKAGEOP then (gs.value PACKAGEOP).toList else []

/-- `NetInstallViewStep::onLeave`.  `none` stands for an `at( index )`
outside the list. -/
def onLeave (w : World) : Option World :=
  let packages := w.step.m_widget.selectedPackages
  let S := w.step.moduleInstanceKey
  let packageOperations := readOperations w.gs
  match removalLoop S packageOperations.length packageOperations with
  | none => none
  | some packageOperations =>
    let buckets := partitionPackages packages
    let packageOperations := appendOperations S buckets.1 buckets.2 packageOperations
    if !packageOperations.isEmpty then
      some { w with gs := w.gs.insert PACKAGEOP (QVariant.list packageOperations) }
    else
      some w

/-! ## setConfigurationMap -/

/-- The name given by `metaObject()->className()`. -/
def className : String := "NetInstallViewStep"

/-- `NetInstallViewStep::setConfigurationMap`. -/
def setConfigurationMap (configurationMap : QVariantMap) (w : World) : World :=
  let widget := w.step.m_widget.setRequired
    (CalamaresUtils.getBool configurationMap "required" false)
  let groupsUrl := CalamaresUtils.getString configurationMap "groupsUrl"
  let gs := if !groupsUrl.isEmpty then w.gs.insert "groupsUrl" (QVariant.str groupsUrl) else w.gs
  let widget := if !groupsUrl.isEmpty then widget.loadGroupList groupsUrl else widget
  let label := (CalamaresUtils.getSubMap configurationMap "label").1
  let sidebarLabel :=
    if QMap.contains label "sidebar" then some (TranslatedString.mk label "sidebar" className)
    else w.step.m_sidebarLabel
  let widget :=
    if QMap.contains label "title" then
      widget.setPageTitle (TranslatedString.mk label "title" className)
    else widget
  { step := { w.step with m_widget := widget, m_sidebarLabel := sidebarLabel }, gs := gs }

/-! ## Calls from the host and the widget -/

/-- What can reach the step after construction: the widget's `checkReady`
signal, and the host's lifecycle and configuration calls. -/
inductive Event where
  | checkReady (b : Bool) : Event
  | activate : Event
  | leave : Event
  | configure (configurationMap : QVariantMap) : Event

/-- The method that an event runs. -/
def Event.apply (w : World) : Event → Option World
  | Event.checkReady b => some { w with step := w.step.nextIsReady b }
  | Event.activate => some { w with step := w.step.onActivate }
  | Event.leave => onLeave w
  | Event.configure configurationMap => some (setConfigurationMap configurationMap w)

/-- The events run in order. -/
def run (w : World) : List Event → Option World
  | [] => some w
  | e :: rest => (e.apply w).bind (fun w1 => run w1 rest)

/-- The readiness values among the events, in order. -/
def deliveries : List Event → List Bool
  | [] => []
  | Event.checkReady b :: rest => b :: deliveries rest
  | _ :: rest => deliveries rest

/-! ## The specification's words -/

/-- The spec's stable filter: the entries that are not of source `S`, in
their original order. -/
def survivors (S : String) (packageOperations : QVariantList) : QVariantList :=
  packageOperations.filter (fun entry => !isFromSource S entry)

/-- The spec's buckets: the critical packages and the non-critical packages,
each converted and in selection order. -/
def criticalOperations (packages : List PackageItemData) : QVariantList :=
  (packages.filter (fun p => p.isCritical)).map PackageItemData.toOperation

/-- The spec's try-install bucket. -/
def nonCriticalOperations (packages : List PackageItemData) : QVariantList :=
  (packages.filter (fun p => !p.isCritical)).map PackageItemData.toOperation

/-- The spec's new entries: an install record if its bucket is non-empty,
then a try_install record if its bucket is non-empty. -/
def newEntries (S : String) (packages : List PackageItemData) : QVariantList :=
  (if (criticalOperations packages).isEmpty then []
    else [QVariant.map [("install", QVariant.list (criticalOperations packages)),
      ("source", QVariant.str S)]])
  ++ (if (nonCriticalOperations packages).isEmpty then []
    else [QVariant.map [("source", QVariant.str S),
      ("try_install", QVariant.list (nonCriticalOperations packages))]])

/-- The spec's resulting list for one leave-transition. -/
def resultingOperations (w : World) : QVariantList :=
  survivors w.step.moduleInstanceKey (readOperations w.gs)
    ++ newEntries w.step.moduleInstanceKey w.step.m_widget.selectedPackages

/-- Whether the entry is a map with the given key. -/
def hasKey (k : String) (entry : QVariant) : Bool :=
  QMap.contains entry.toMap k

/-- The spec's invariant on an operations list: for every source value, at
most one entry with an `install` key and at most one entry with a
`try_install` key carry that source. -/
def AtMostOnePerSource (packageOperations : QVariantList) : Prop :=
  ∀ t : String,
    (packageOperations.filter (fun e => hasKey "install" e && isFromSource t e)).length ≤ 1 ∧
    (packageOperations.filter (fun e => hasKey "try_install" e && isFromSource t e)).length ≤ 1

/-- The spec's condition on the configuration: the key is present and holds a
string. -/
def hasString (configurationMap : QVariantMap) (key : String) : Bool :=
  QMap.contains configurationMap key &&
    match QMap.value configurationMap key with
    | QVariant.str _ => true
    | _ => false

/-- The condition the code tests: the key is present and holds a string that
is not empty. -/
def hasNonEmptyString (configurationMap : QVariantMap) (key : String) : Bool :=
  QMap.contains configurationMap key &&
    match QMap.value configurationMap key with
    | QVariant.str s => !s.isEmpty
    | _ => false

/-! ## Concrete inputs -/

/-- The instance key of the examples. -/
def keyS : String := "netinstall@netinstall"

/-- A critical package `A`. -/
def pkgA : PackageItemData := { isCritical := true, operation := QVariant.str "A" }

/-- A non-critical package `B`. -/
def pkgB : PackageItemData := { isCritical := false, operation := QVariant.str "B" }

/-- A widget with the given selection and nothing asked of it yet. -/
def pageOf (packages : List PackageItemData) : NetInstallPage :=
  { selectedPackages := packages
    required := false
    loadGroupListCalls := []
    pageTitle := none
    activations := 0 }

/-- A newly constructed step with the given key and selection, and a storage
with the given content. -/
def worldOf (key : String) (packages : List PackageItemData) (m : QVariantMap) : World :=
  { step := NetInstallViewStep.new key (pageOf packages)
    gs := { m := m, inserted := [] } }

/-- A storage whose operations list holds the two entries of an earlier visit
of this step. -/
def staleStore : QVariantMap :=
  [(PACKAGEOP, QVariant.list
    [QVariant.map (installOp keyS [QVariant.str "A"]),
     QVariant.map (tryInstallOp keyS [QVariant.str "B"])])]

/-- A storage whose operations list holds one install entry of an earlier
visit of this step. -/
def staleInstallStore : QVariantMap :=
  [(PACKAGEOP, QVariant.list [QVariant.map (installOp keyS [QVariant.str "A"])])]

/-- An entry of another module. -/
def otherEntry : QVariant :=
  QVariant.map (installOp "packagechooser@packagechooser" [QVariant.str "C"])

/-- A storage whose operations list holds one entry of another module. -/
def otherStore : QVariantMap :=
  [(PACKAGEOP, QVariant.list [otherEntry])]

/-- A configuration whose `groupsUrl` is an empty string. -/
def emptyUrlConfig : QVariantMap :=
  [("groupsUrl", QVariant.str "")]

/-! ## Lemmas on the map -/

theorem keyLt_irrefl (a : String) : keyLt a a = false := by
  simp [keyLt]

theorem ne_of_keyLt {a k : String} (h : keyLt a k = true) : a ≠ k := by
  intro hak
  subst hak
  rw [keyLt_irrefl] at h
  exact Bool.false_ne_true h

theorem QMap.contains_insert (k : String) (v : QVariant) (m : QVariantMap) :
    QMap.contains (QMap.insert k v m) k = true := by
  induction m with
  | nil => simp [QMap.insert, QMap.contains]
  | cons p rest ih =>
    obtain ⟨a, b⟩ := p
    unfold QMap.insert
    by_cases h1 : keyLt a k = true
    · have ih1 : QMap.contains (QMap.insert k v rest) k = true := ih
      simp only [QMap.contains] at ih1 ⊢
      simp [h1, ih1]
    · by_cases h2 : keyLt k a = true
      · simp [h1, h2, QMap.contains]
      · simp [h1, h2, QMap.contains]

theorem QMap.value_insert (k : String) (v : QVariant) (m : QVariantMap) :
    QMap.value (QMap.insert k v m) k = v := by
  induction m with
  | nil => simp [QMap.insert, QMap.value]
  | cons p rest ih =>
    obtain ⟨a, b⟩ := p
    unfold QMap.insert
    by_cases h1 : keyLt a k = true
    · have hne : a ≠ k := ne_of_keyLt h1
      have ih1 : QMap.value (QMap.insert k v rest) k = v := ih
      simp only [QMap.value] at ih1 ⊢
      simp [h1, hne, ih1]
    · by_cases h2 : keyLt k a = true
      · simp [h1, h2, QMap.value]
      · simp [h1, h2, QMap.value]

theorem QMap.insert_insert (k : String) (v v1 : QVariant) (m : QVariantMap) :
    QMap.insert k v (QMap.insert k v1 m) = QMap.insert k v m := by
  induction m with
  | nil => simp [QMap.insert, keyLt_irrefl]
  | cons p rest ih =>
    obtain ⟨a, b⟩ := p
    by_cases h1 : keyLt a k = true
    · simp [QMap.insert, h1, ih]
    · by_cases h2 : keyLt k a = true
      · simp [QMap.insert, h1, h2, keyLt_irrefl]
      · simp [QMap.insert, h1, h2, keyLt_irrefl]

theorem installOp_eq (S : String) (l : QVariantList) :
    installOp S l = [("install", QVariant.list l), ("source", QVariant.str S)] := by
  rfl

theorem tryInstallOp_eq (S : String) (l : QVariantList) :
    tryInstallOp S l = [("source", QVariant.str S), ("try_install", QVariant.list l)] := by
  rfl

/-! ## Lemmas on the loops of onLeave -/

theorem survivors_snoc_removed (S : String) (l : QVariantList) (e : QVariant)
    (h : isFromSource S e = true) : survivors S (l ++ [e]) = survivors S l := by
  unfold survivors
  rw [List.filter_append]
  simp [h]

theorem survivors_snoc_kept (S : String) (l : QVariantList) (e : QVariant)
    (h : isFromSource S e = false) : survivors S (l ++ [e]) = survivors S l ++ [e] := by
  unfold survivors
  rw [List.filter_append]
  simp [h]

theorem removalLoop_upto (S : String) (k : Nat) :
    ∀ ops : QVariantList, k ≤ ops.length →
      removalLoop S k ops = some (survivors S (ops.take k) ++ ops.drop k) := by
  induction k with
  | zero =>
    intro ops _
    simp [removalLoop, survivors]
  | succ k ih =>
    intro ops hk
    have hlt : k < ops.length := hk
    have hget : ops[k]? = some ops[k] := List.getElem?_eq_getElem hlt
    have htake : ops.take (k + 1) = ops.take k ++ [ops[k]] := by
      rw [List.take_succ, hget]
      rfl
    have hdrop : ops.drop k = ops[k] :: ops.drop (k + 1) := List.drop_eq_getElem_cons hlt
    unfold removalLoop
    rw [hget]
    by_cases hp : isFromSource S ops[k] = true
    · have hlen : k ≤ (ops.eraseIdx k).length := by
        rw [List.length_eraseIdx]
        simp only [hlt, if_true]
        omega
      have hk1 : ops.length ≤ k + 1 + (ops.length - (k + 1)) := by omega
      simp only [hp, if_true]
      rw [ih (ops.eraseIdx k) hlen, htake, List.eraseIdx_eq_take_drop_succ]
      have e1 : (ops.take k ++ ops.drop (k + 1)).take k = ops.take k := by
        rw [List.take_append_of_le_length (by simp; omega)]
        simp [List.take_take]
      have e2 : (ops.take k ++ ops.drop (k + 1)).drop k = ops.drop (k + 1) := by
        have hl : (ops.take k).length = k := by simp; omega
        rw [List.drop_append_eq_append_drop, hl]
        simp [List.drop_take]
      rw [e1, e2, survivors_snoc_removed S _ _ hp]
    · have hlen : k ≤ ops.length := by omega
      have hp2 : isFromSource S ops[k] = false := by simpa using hp
      simp only [hp2, Bool.false_eq_true, if_false]
      rw [ih ops hlen, htake, hdrop, survivors_snoc_kept S _ _ hp2, List.append_assoc]
      rfl

theorem removalLoop_eq (S : String) (ops : QVariantList) :
    removalLoop S ops.length ops = some (survivors S ops) := by
  rw [removalLoop_upto S ops.length ops (Nat.le_refl _)]
  simp

theorem foldl_partitionStep (packages : List PackageItemData) :
    ∀ acc : QVariantList × QVariantList,
      packages.foldl partitionStep acc
        = (acc.1 ++ criticalOperations packages, acc.2 ++ nonCriticalOperations packages) := by
  induction packages with
  | nil =>
    intro acc
    simp [criticalOperations, nonCriticalOperations]
  | cons p rest ih =>
    intro acc
    rw [List.foldl_cons, ih]
    cases hc : p.isCritical <;>
      simp [partitionStep, criticalOperations, nonCriticalOperations, hc]

theorem partitionPackages_eq (packages : List PackageItemData) :
    partitionPackages packages = (criticalOperations packages, nonCriticalOperations packages) := by
  unfold partitionPackages
  rw [foldl_partitionStep]
  simp

theorem appendOperations_eq (S : String) (packages : List PackageItemData)
    (ops : QVariantList) :
    appendOperations S (criticalOperations packages) (nonCriticalOperations packages) ops
      = ops ++ newEntries S packages := by
  unfold appendOperations newEntries
  rw [installOp_eq, tryInstallOp_eq]
  cases h1 : (criticalOperations packages).isEmpty <;>
    cases h2 : (nonCriticalOperations packages).isEmpty <;> simp

/-- The world left by one `onLeave`, in the spec's words. -/
theorem onLeave_eq (w : World) :
    onLeave w = some (if (resultingOperations w).isEmpty then w
      else { w with gs := w.gs.insert PACKAGEOP (QVariant.list (resultingOperations w)) }) := by
  unfold onLeave
  simp only [removalLoop_eq, partitionPackages_eq, appendOperations_eq]
  unfold resultingOperations
  cases h : (survivors w.step.moduleInstanceKey (readOperations w.gs)
      ++ newEntries w.step.moduleInstanceKey w.step.m_widget.selectedPackages).isEmpty <;> simp

theorem readOperations_insert (gs : GlobalStorage) (l : QVariantList) :
    readOperations (gs.insert PACKAGEOP (QVariant.list l)) = l := by
  simp [readOperations, GlobalStorage.insert, GlobalStorage.contains, GlobalStorage.value,
    QMap.contains_insert, QMap.value_insert, QVariant.toList]

/-! ## Lemmas on the entries -/

theorem isFromSource_install (S t : String) (l : QVariantList) :
    isFromSource t (QVariant.map [("install", QVariant.list l), ("source", QVariant.str S)])
      = (S == t) := by
  simp [isFromSource, QVariant.toMap, QMap.contains, QMap.value, QVariant.toString]

theorem isFromSource_tryInstall (S t : String) (l : QVariantList) :
    isFromSource t (QVariant.map [("source", QVariant.str S), ("try_install", QVariant.list l)])
      = (S == t) := by
  simp [isFromSource, QVariant.toMap, QMap.contains, QMap.value, QVariant.toString]

theorem survivors_newEntries (S : String) (packages : List PackageItemData) :
    survivors S (newEntries S packages) = [] := by
  unfold survivors newEntries
  rw [List.filter_append]
  cases h1 : (criticalOperations packages).isEmpty <;>
    cases h2 : (nonCriticalOperations packages).isEmpty <;>
    simp [isFromSource_install, isFromSource_tryInstall]

theorem survivors_survivors (S : String) (ops : QVariantList) :
    survivors S (survivors S ops) = survivors S ops := by
  unfold survivors
  rw [List.filter_filter]
  simp

theorem resultingOperations_insert (w : World) :
    resultingOperations
        { w with gs := w.gs.insert PACKAGEOP (QVariant.list (resultingOperations w)) }
      = resultingOperations w := by
  have h : ∀ l : QVariantList,
      resultingOperations { w with gs := w.gs.insert PACKAGEOP (QVariant.list l) }
        = survivors w.step.moduleInstanceKey l
          ++ newEntries w.step.moduleInstanceKey w.step.m_widget.selectedPackages := by
    intro l
    simp [resultingOperations, readOperations_insert]
  rw [h]
  unfold resultingOperations
  unfold survivors
  rw [List.filter_append]
  have h1 := survivors_newEntries w.step.moduleInstanceKey w.step.m_widget.selectedPackages
  have h2 := survivors_survivors w.step.moduleInstanceKey (readOperations w.gs)
  unfold survivors at h1 h2
  rw [h1, h2]
  simp

/-! ## The removal loop and the partition -/

/-- C10: the reverse index scan with `removeAt` ends on every list, never
reads outside the list (its result is `some`), and leaves exactly the stable
filter of the list by "not (has a `source` key whose string value is S)":
the survivors are a sublist of the original, so unchanged and in their
original order. -/
theorem removalLoop_is_stable_filter (S : String) (packageOperations : QVariantList) :
    removalLoop S packageOperations.length packageOperations
        = some (packageOperations.filter (fun entry => !isFromSource S entry))
      ∧ (packageOperations.filter (fun entry => !isFromSource S entry)).Sublist
          packageOperations
      ∧ ∀ entry, entry ∈ packageOperations.filter (fun entry => !isFromSource S entry)
          ↔ entry ∈ packageOperations ∧ isFromSource S entry = false := by
  refine ⟨removalLoop_eq S packageOperations, List.filter_sublist _, ?_⟩
  intro entry
  simp [List.mem_filter]

/-- C6: the partition loop of `onLeave` puts every selected package in
exactly one bucket: the install bucket is the converted critical packages,
the try_install bucket the converted non-critical packages, each in
selection order; the bucket lengths add up to the number of packages and the
two buckets together are a rearrangement of the converted selection. -/
theorem partitionPackages_by_criticality (packages : List PackageItemData) :
    (partitionPackages packages).1
        = (packages.filter (fun p => p.isCritical)).map PackageItemData.toOperation
      ∧ (partitionPackages packages).2
        = (packages.filter (fun p => !p.isCritical)).map PackageItemData.toOperation
      ∧ (partitionPackages packages).1.length + (partitionPackages packages).2.length
        = packages.length
      ∧ ((partitionPackages packages).1 ++ (partitionPackages packages).2).Perm
          (packages.map PackageItemData.toOperation) := by
  rw [partitionPackages_eq]
  refine ⟨rfl, rfl, ?_, ?_⟩
  · simp only [criticalOperations, nonCriticalOperations, List.length_map]
    induction packages with
    | nil => rfl
    | cons p rest ih =>
      cases hc : p.isCritical <;> simp [List.filter_cons, hc] <;> omega
  · simp only [criticalOperations, nonCriticalOperations]
    rw [← List.map_append]
    apply List.Perm.map
    exact List.filter_append_perm (fun p => p.isCritical) packages

/-! ## onLeave on the shared store -/

/-- C4: `onLeave` returns, leaves the step alone, and calls `insert` on the
store exactly when the resulting list (survivors followed by the new entries)
is non-empty.  With an empty resulting list the world is exactly as it was,
so an absent key stays absent; with a non-empty one a single `insert` of
`packageOperations` is made and the key then holds exactly that list. -/
theorem onLeave_writes_iff_nonempty (w : World) :
    ∃ w1, onLeave w = some w1 ∧ w1.step = w.step
      ∧ (w1.gs.inserted ≠ w.gs.inserted ↔ resultingOperations w ≠ [])
      ∧ (resultingOperations w = [] → w1 = w)
      ∧ (resultingOperations w ≠ [] →
          w1.gs.inserted
              = w.gs.inserted ++ [(PACKAGEOP, QVariant.list (resultingOperations w))]
            ∧ w1.gs.m = QMap.insert PACKAGEOP (QVariant.list (resultingOperations w)) w.gs.m
            ∧ w1.gs.contains PACKAGEOP = true
            ∧ w1.gs.value PACKAGEOP = QVariant.list (resultingOperations w)
            ∧ readOperations w1.gs = resultingOperations w) := by
  by_cases h : resultingOperations w = []
  · have e : onLeave w = some w := by
      rw [onLeave_eq]
      simp [h]
    refine ⟨w, e, rfl, ?_, ?_, ?_⟩
    · simp [h]
    · intro _
      rfl
    · intro h3
      exact absurd h h3
  · have h2 : (resultingOperations w).isEmpty = false := by
      simpa [List.isEmpty_iff] using h
    have e : onLeave w
        = some { w with gs := w.gs.insert PACKAGEOP (QVariant.list (resultingOperations w)) } := by
      rw [onLeave_eq]
      simp only [h2, Bool.false_eq_true, if_false]
    refine ⟨_, e, rfl, ?_, ?_, ?_⟩
    · simp [h, GlobalStorage.insert]
    · intro h3
      exact absurd h3 h
    · intro _
      refine ⟨rfl, rfl, ?_, ?_, readOperations_insert _ _⟩
      · simp [GlobalStorage.insert, GlobalStorage.contains, QMap.contains_insert]
      · simp [GlobalStorage.insert, GlobalStorage.value, QMap.value_insert]

/-- C2: `onLeave` is idempotent on the store.  Both calls return, neither
changes the step (so the selection is the same), and the store content after
the second call is the store content after the first: the same keys with the
same values, `packageOperations` included. -/
theorem onLeave_idempotent (w : World) :
    ∃ w1 w2, onLeave w = some w1 ∧ onLeave w1 = some w2
      ∧ w1.step = w.step ∧ w2.step = w1.step
      ∧ w2.gs.m = w1.gs.m
      ∧ w2.gs.contains PACKAGEOP = w1.gs.contains PACKAGEOP
      ∧ w2.gs.value PACKAGEOP = w1.gs.value PACKAGEOP := by
  by_cases h : (resultingOperations w).isEmpty = true
  · have e : onLeave w = some w := by
      rw [onLeave_eq]
      simp [h]
    exact ⟨w, w, e, e, rfl, rfl, rfl, rfl, rfl⟩
  · have h2 : (resultingOperations w).isEmpty = false := by simpa using h
    have e1 : onLeave w
        = some { w with gs := w.gs.insert PACKAGEOP (QVariant.list (resultingOperations w)) } := by
      rw [onLeave_eq]
      simp only [h2, Bool.false_eq_true, if_false]
    have e2 : onLeave
          { w with gs := w.gs.insert PACKAGEOP (QVariant.list (resultingOperations w)) }
        = some (World.mk w.step (GlobalStorage.insert
            (w.gs.insert PACKAGEOP (QVariant.list (resultingOperations w)))
            PACKAGEOP (QVariant.list (resultingOperations w)))) := by
      rw [onLeave_eq, resultingOperations_insert]
      simp only [h2, Bool.false_eq_true, if_false]
    have hm : (GlobalStorage.insert
          (w.gs.insert PACKAGEOP (QVariant.list (resultingOperations w)))
          PACKAGEOP (QVariant.list (resultingOperations w))).m
        = (w.gs.insert PACKAGEOP (QVariant.list (resultingOperations w))).m := by
      simp [GlobalStorage.insert, QMap.insert_insert]
    refine ⟨_, _, e1, e2, rfl, rfl, hm, ?_, ?_⟩
    · simp only [GlobalStorage.contains, hm]
    · simp only [GlobalStorage.value, hm]

/-- The spec's example: with a critical `A` and a non-critical `B` selected
and no prior operations, `onLeave` leaves the list
`[{install:[A], source:S}, {try_install:[B], source:S}]`. -/
theorem onLeave_example :
    ∃ w1, onLeave (worldOf keyS [pkgA, pkgB] []) = some w1
      ∧ readOperations w1.gs
        = [QVariant.map [("install", QVariant.list [QVariant.str "A"]),
              ("source", QVariant.str keyS)],
           QVariant.map [("source", QVariant.str keyS),
              ("try_install", QVariant.list [QVariant.str "B"])]] := by
  exact ⟨_, rfl, rfl⟩

/-- C1: on a store whose list holds only the two entries of this step's
earlier visit, with nothing selected now, `onLeave` returns and leaves the
store as it was: the shared list still is those two entries, while the prior
entries of other sources followed by the new entries is the empty list. -/
theorem onLeave_keeps_stale_entries :
    onLeave (worldOf keyS [] staleStore) = some (worldOf keyS [] staleStore)
      ∧ readOperations (worldOf keyS [] staleStore).gs
        = [QVariant.map (installOp keyS [QVariant.str "A"]),
           QVariant.map (tryInstallOp keyS [QVariant.str "B"])]
      ∧ survivors keyS (readOperations (worldOf keyS [] staleStore).gs)
          ++ newEntries keyS [] = [] := by
  exact ⟨rfl, rfl, rfl⟩

/-- C3: with an empty selection and a store whose list holds one install
entry of this step's earlier visit, `onLeave` returns a world whose shared
list still contains an entry of this step's source. -/
theorem onLeave_empty_selection_keeps_own_entry :
    ∃ w1, onLeave (worldOf keyS [] staleInstallStore) = some w1
      ∧ w1.step.m_widget.selectedPackages = []
      ∧ (readOperations w1.gs).any (isFromSource keyS) = true := by
  exact ⟨_, rfl, rfl, rfl⟩

/-! ## The invariant of the shared list -/

theorem hasKey_install_install (S : String) (l : QVariantList) :
    hasKey "install" (QVariant.map [("install", QVariant.list l), ("source", QVariant.str S)])
      = true := by
  simp [hasKey, QVariant.toMap, QMap.contains]

theorem hasKey_install_tryInstall (S : String) (l : QVariantList) :
    hasKey "install" (QVariant.map [("source", QVariant.str S), ("try_install", QVariant.list l)])
      = false := by
  simp [hasKey, QVariant.toMap, QMap.contains]

theorem hasKey_tryInstall_install (S : String) (l : QVariantList) :
    hasKey "try_install" (QVariant.map [("install", QVariant.list l), ("source", QVariant.str S)])
      = false := by
  simp [hasKey, QVariant.toMap, QMap.contains]

theorem hasKey_tryInstall_tryInstall (S : String) (l : QVariantList) :
    hasKey "try_install"
        (QVariant.map [("source", QVariant.str S), ("try_install", QVariant.list l)])
      = true := by
  simp [hasKey, QVariant.toMap, QMap.contains]

theorem filter_newEntries_other (S t k : String) (hne : (S == t) = false)
    (packages : List PackageItemData) :
    (newEntries S packages).filter (fun e => hasKey k e && isFromSource t e) = [] := by
  unfold newEntries
  rw [List.filter_append]
  cases h1 : (criticalOperations packages).isEmpty <;>
    cases h2 : (nonCriticalOperations packages).isEmpty <;>
    simp [isFromSource_install, isFromSource_tryInstall, hne]

theorem filter_survivors_self (S k : String) (ops : QVariantList) :
    (survivors S ops).filter (fun e => hasKey k e && isFromSource S e) = [] := by
  unfold survivors
  rw [List.filter_filter, List.filter_eq_nil_iff]
  intro e _
  cases isFromSource S e <;> simp

theorem length_filter_newEntries_install (S t : String) (packages : List PackageItemData) :
    ((newEntries S packages).filter
      (fun e => hasKey "install" e && isFromSource t e)).length ≤ 1 := by
  unfold newEntries
  rw [List.filter_append]
  cases h1 : (criticalOperations packages).isEmpty <;>
    cases h2 : (nonCriticalOperations packages).isEmpty <;>
    cases h3 : (S == t) <;>
    simp [List.filter_cons, isFromSource_install, isFromSource_tryInstall, h3,
      hasKey_install_install, hasKey_install_tryInstall]

theorem length_filter_newEntries_tryInstall (S t : String) (packages : List PackageItemData) :
    ((newEntries S packages).filter
      (fun e => hasKey "try_install" e && isFromSource t e)).length ≤ 1 := by
  unfold newEntries
  rw [List.filter_append]
  cases h1 : (criticalOperations packages).isEmpty <;>
    cases h2 : (nonCriticalOperations packages).isEmpty <;>
    cases h3 : (S == t) <;>
    simp [List.filter_cons, isFromSource_install, isFromSource_tryInstall, h3,
      hasKey_tryInstall_install, hasKey_tryInstall_tryInstall]

theorem length_filter_survivors_le (S : String) (p : QVariant → Bool) (ops : QVariantList) :
    ((survivors S ops).filter p).length ≤ (ops.filter p).length := by
  unfold survivors
  exact List.Sublist.length_le (List.Sublist.filter p (List.filter_sublist ops))

theorem length_filter_resulting (S t k : String) (ops : QVariantList)
    (packages : List PackageItemData)
    (hold : (ops.filter (fun e => hasKey k e && isFromSource t e)).length ≤ 1)
    (hnew : ((newEntries S packages).filter
      (fun e => hasKey k e && isFromSource t e)).length ≤ 1) :
    ((survivors S ops ++ newEntries S packages).filter
      (fun e => hasKey k e && isFromSource t e)).length ≤ 1 := by
  rw [List.filter_append, List.length_append]
  cases h : (S == t)
  · rw [filter_newEntries_other S t k h packages]
    have := length_filter_survivors_le S (fun e => hasKey k e && isFromSource t e) ops
    simp only [List.length_nil, Nat.add_zero]
    omega
  · have hst : S = t := by simpa using h
    subst hst
    rw [filter_survivors_self]
    simp only [List.length_nil, Nat.zero_add]
    exact hnew

/-- C5: if the shared list holds, for every source value, at most one entry
with an `install` key and at most one with a `try_install` key of that
source, then `onLeave` returns and the shared list of the world it leaves
holds that too, for every selection and every step identity. -/
theorem onLeave_preserves_atMostOnePerSource (w : World)
    (h : AtMostOnePerSource (readOperations w.gs)) :
    ∃ w1, onLeave w = some w1 ∧ AtMostOnePerSource (readOperations w1.gs) := by
  by_cases he : (resultingOperations w).isEmpty = true
  · refine ⟨w, ?_, h⟩
    rw [onLeave_eq]
    simp [he]
  · have h2 : (resultingOperations w).isEmpty = false := by simpa using he
    refine ⟨{ w with gs := w.gs.insert PACKAGEOP (QVariant.list (resultingOperations w)) },
      ?_, ?_⟩
    · rw [onLeave_eq]
      simp only [h2, Bool.false_eq_true, if_false]
    · rw [readOperations_insert]
      intro t
      exact ⟨length_filter_resulting _ t "install" _ _ (h t).1
          (length_filter_newEntries_install _ t _),
        length_filter_resulting _ t "try_install" _ _ (h t).2
          (length_filter_newEntries_tryInstall _ t _)⟩

theorem atMostOnePerSource_singleton (e : QVariant) : AtMostOnePerSource [e] := by
  intro t
  exact ⟨List.length_filter_le _ [e], List.length_filter_le _ [e]⟩

/-- The invariant is kept at a store that holds one entry of another module,
with a critical and a non-critical package selected. -/
theorem onLeave_preserves_atMostOnePerSource_witness :
    AtMostOnePerSource (readOperations (worldOf keyS [pkgA, pkgB] otherStore).gs)
      ∧ ∃ w1, onLeave (worldOf keyS [pkgA, pkgB] otherStore) = some w1
          ∧ AtMostOnePerSource (readOperations w1.gs) :=
  ⟨atMostOnePerSource_singleton otherEntry,
    onLeave_preserves_atMostOnePerSource (worldOf keyS [pkgA, pkgB] otherStore)
      (atMostOnePerSource_singleton otherEntry)⟩

/-! ## Readiness -/

theorem onLeave_step (w : World) : ∃ w1, onLeave w = some w1 ∧ w1.step = w.step := by
  refine ⟨_, onLeave_eq w, ?_⟩
  cases (resultingOperations w).isEmpty <;> rfl

theorem setConfigurationMap_nextEnabled (configurationMap : QVariantMap) (w : World) :
    (setConfigurationMap configurationMap w).step.m_nextEnabled = w.step.m_nextEnabled
      ∧ (setConfigurationMap configurationMap w).step.nextStatusChanged
        = w.step.nextStatusChanged := by
  exact ⟨rfl, rfl⟩

theorem apply_readiness (w : World) (e : Event) :
    ∃ w1, e.apply w = some w1
      ∧ w1.step.m_nextEnabled = (deliveries [e]).getLast?.getD w.step.m_nextEnabled
      ∧ w1.step.nextStatusChanged = w.step.nextStatusChanged ++ deliveries [e] := by
  cases e with
  | checkReady b => exact ⟨_, rfl, rfl, rfl⟩
  | activate => exact ⟨_, rfl, rfl, by simp [deliveries, NetInstallViewStep.onActivate]⟩
  | leave =>
    obtain ⟨w1, h1, h2⟩ := onLeave_step w
    exact ⟨w1, h1, by rw [h2]; rfl, by rw [h2]; simp [deliveries]⟩
  | configure configurationMap =>
    exact ⟨_, rfl, rfl, by simp [deliveries, (setConfigurationMap_nextEnabled _ w).2]⟩

theorem run_readiness (events : List Event) :
    ∀ w : World, ∃ w1, run w events = some w1
      ∧ w1.step.m_nextEnabled = (deliveries events).getLast?.getD w.step.m_nextEnabled
      ∧ w1.step.nextStatusChanged = w.step.nextStatusChanged ++ deliveries events := by
  induction events with
  | nil =>
    intro w
    exact ⟨w, rfl, rfl, by simp [deliveries]⟩
  | cons e rest ih =>
    intro w
    obtain ⟨w1, h1, h2, h3⟩ := apply_readiness w e
    obtain ⟨w2, k1, k2, k3⟩ := ih w1
    refine ⟨w2, ?_, ?_, ?_⟩
    · simp [run, h1, k1]
    · rw [k2, h2]
      cases e <;> simp [deliveries, List.getLast?_cons]
    · rw [k3, h3]
      cases e <;> simp [deliveries]

/-- C7: after construction and any finite sequence of calls (readiness
deliveries from the widget, `onActivate`, `onLeave`, `setConfigurationMap`),
the run returns, `isNextEnabled()` is the last readiness value delivered, or
`false` when none was, and the values emitted as `nextStatusChanged` are the
constructor's `true` followed by exactly the delivered values in order.  A
single delivery sets `isNextEnabled()` to its value and emits that value;
`onActivate`, `onLeave` and `setConfigurationMap` leave `isNextEnabled()`
as it is. -/
theorem readiness_mirrored (key : String) (page : NetInstallPage) (gs : GlobalStorage)
    (events : List Event) (w : World) (b : Bool) (configurationMap : QVariantMap) :
    (∃ w1, run { step := NetInstallViewStep.new key page, gs := gs } events = some w1
      ∧ w1.step.isNextEnabled = (deliveries events).getLast?.getD false
      ∧ w1.step.nextStatusChanged = true :: deliveries events)
    ∧ (w.step.nextIsReady b).isNextEnabled = b
    ∧ (w.step.nextIsReady b).nextStatusChanged = w.step.nextStatusChanged ++ [b]
    ∧ w.step.onActivate.isNextEnabled = w.step.isNextEnabled
    ∧ (∃ w1, onLeave w = some w1 ∧ w1.step.isNextEnabled = w.step.isNextEnabled)
    ∧ (setConfigurationMap configurationMap w).step.isNextEnabled = w.step.isNextEnabled := by
  refine ⟨?_, rfl, rfl, rfl, ?_, rfl⟩
  · obtain ⟨w1, h1, h2, h3⟩ :=
      run_readiness events { step := NetInstallViewStep.new key page, gs := gs }
    exact ⟨w1, h1, h2, h3⟩
  · obtain ⟨w1, h1, h2⟩ := onLeave_step w
    exact ⟨w1, h1, by rw [h2]⟩

/-! ## Configuration -/

/-- C8: with an empty configuration map `setConfigurationMap` changes nothing
but the widget's required flag, which it sets to `false`: no `loadGroupList`
call, the store and its record of `insert` calls untouched (so no write of
`groupsUrl`), the sidebar label and the page title as they were; and on a
newly constructed step `prettyName()` still is "Package selection". -/
theorem setConfigurationMap_empty (w : World) (key : String) (page : NetInstallPage)
    (gs : GlobalStorage) :
    setConfigurationMap [] w
        = { w with step := { w.step with m_widget := { w.step.m_widget with required := false } } }
      ∧ (setConfigurationMap [] w).step.m_widget.required = false
      ∧ (setConfigurationMap [] w).step.m_widget.loadGroupListCalls
          = w.step.m_widget.loadGroupListCalls
      ∧ (setConfigurationMap [] w).gs = w.gs
      ∧ (setConfigurationMap [] w).gs.contains "groupsUrl" = w.gs.contains "groupsUrl"
      ∧ (setConfigurationMap [] w).step.m_sidebarLabel = w.step.m_sidebarLabel
      ∧ (setConfigurationMap [] w).step.m_widget.pageTitle = w.step.m_widget.pageTitle
      ∧ (setConfigurationMap [] w).step.prettyName = w.step.prettyName
      ∧ (NetInstallViewStep.new key page).prettyName = "Package selection"
      ∧ (setConfigurationMap [] { step := NetInstallViewStep.new key page, gs := gs }).step.prettyName
          = "Package selection" := by
  exact ⟨rfl, rfl, rfl, rfl, rfl, rfl, rfl, rfl, rfl, rfl⟩

/-- C9, as stated, fails: a configuration whose `groupsUrl` key is present
with a string value, the empty string, makes `setConfigurationMap` neither
write `groupsUrl` to the store nor ask the widget to load a group list. -/
theorem groupsUrl_present_but_not_loaded :
    hasString emptyUrlConfig "groupsUrl" = true
      ∧ (setConfigurationMap emptyUrlConfig (worldOf keyS [] [])).gs.inserted = []
      ∧ (setConfigurationMap emptyUrlConfig (worldOf keyS [] [])).gs.contains "groupsUrl" = false
      ∧ (setConfigurationMap emptyUrlConfig (worldOf keyS [] [])).step.m_widget.loadGroupListCalls
          = [] := by
  exact ⟨rfl, rfl, rfl, rfl⟩

theorem getString_nonEmpty (configurationMap : QVariantMap) (key : String) :
    (!(CalamaresUtils.getString configurationMap key).isEmpty)
      = hasNonEmptyString configurationMap key := by
  have hempty : ("" : String).isEmpty = true := by decide
  unfold CalamaresUtils.getString hasNonEmptyString
  cases hc : QMap.contains configurationMap key <;>
    cases hv : QMap.value configurationMap key <;> simp [hempty]

theorem value_of_hasNonEmptyString (configurationMap : QVariantMap) (key : String)
    (h : hasNonEmptyString configurationMap key = true) :
    QMap.value configurationMap key
      = QVariant.str (CalamaresUtils.getString configurationMap key) := by
  unfold hasNonEmptyString at h
  unfold CalamaresUtils.getString
  cases hc : QMap.contains configurationMap key <;>
    cases hv : QMap.value configurationMap key <;> simp [hc, hv] at h ⊢

theorem setConfigurationMap_gs (configurationMap : QVariantMap) (w : World) :
    (setConfigurationMap configurationMap w).gs
      = if hasNonEmptyString configurationMap "groupsUrl" then
          w.gs.insert "groupsUrl"
            (QVariant.str (CalamaresUtils.getString configurationMap "groupsUrl"))
        else w.gs := by
  rw [← getString_nonEmpty]
  rfl

theorem setConfigurationMap_loadGroupListCalls (configurationMap : QVariantMap) (w : World) :
    (setConfigurationMap configurationMap w).step.m_widget.loadGroupListCalls
      = if hasNonEmptyString configurationMap "groupsUrl" then
          w.step.m_widget.loadGroupListCalls
            ++ [CalamaresUtils.getString configurationMap "groupsUrl"]
        else w.step.m_widget.loadGroupListCalls := by
  rw [← getString_nonEmpty]
  cases h1 : (CalamaresUtils.getString configurationMap "groupsUrl").isEmpty <;>
    cases h2 : QMap.contains (CalamaresUtils.getSubMap configurationMap "label").1 "title" <;>
    simp [setConfigurationMap, h1, h2, NetInstallPage.setRequired,
      NetInstallPage.loadGroupList, NetInstallPage.setPageTitle]

/-- C9, amended: for every configuration map, `setConfigurationMap` writes
the URL to the store under `groupsUrl` and asks the widget to load its group
list from it if and only if the `groupsUrl` key is present with a string
value that is not empty; otherwise the store and the widget's load requests
are as they were. -/
theorem setConfigurationMap_groupsUrl (configurationMap : QVariantMap) (w : World) :
    (setConfigurationMap configurationMap w).gs
        = (if hasNonEmptyString configurationMap "groupsUrl" then
            w.gs.insert "groupsUrl" (QMap.value configurationMap "groupsUrl")
          else w.gs)
      ∧ (setConfigurationMap configurationMap w).step.m_widget.loadGroupListCalls
        = (if hasNonEmptyString configurationMap "groupsUrl" then
            w.step.m_widget.loadGroupListCalls
              ++ [(QMap.value configurationMap "groupsUrl").toString]
          else w.step.m_widget.loadGroupListCalls)
      ∧ ((setConfigurationMap configurationMap w).gs.inserted ≠ w.gs.inserted
          ↔ hasNonEmptyString configurationMap "groupsUrl" = true)
      ∧ ((setConfigurationMap configurationMap w).step.m_widget.loadGroupListCalls
            ≠ w.step.m_widget.loadGroupListCalls
          ↔ hasNonEmptyString configurationMap "groupsUrl" = true) := by
  rw [setConfigurationMap_gs, setConfigurationMap_loadGroupListCalls]
  cases h : hasNonEmptyString configurationMap "groupsUrl"
  · simp
  · have hv := value_of_hasNonEmptyString configurationMap "groupsUrl" h
    rw [hv]
    simp [GlobalStorage.insert, QVariant.toString]

end NetInstall
